import Mathlib

/-!
Shallow embedding of the punchcard pipeline engine (`Enumerable`) and the
DynamoDB data-access client (`DynamoDBClient`), together with theorems
settling the specification claims about them.

Conventions of the embedding:
* JS arrays become `List`; `undefined`/absent values become `Option.none`.
* Async iterators are modelled as the (finite) list of values they yield;
  the transformation an `Enumerable` stage stores is then a function on
  lists.
* JS reference identity of dependency arrays (`===`) is modelled by tagging
  every dependency list with a numeric identity (`DepList.id`); a fresh
  array literal receives an id strictly greater than every id already in
  the chain, so it is distinct from all of them, while propagating
  `this.dependencies` unchanged keeps the same id.
-/

namespace Punchcard

/-- A dependency list together with its JS object identity tag.
`deps` is the array contents; `id` models the array's reference identity. -/
structure DepList (D : Type) where
  id : Nat
  deps : List D
deriving DecidableEq

/-- Embedding of the `Enumerable` stage chain (src/unnamed/part_001).
`source` stands for a concrete root enumerable (event ↦ record sequence);
`chain` is the primitive every combinator is built on: it stores the
predecessor, the stored transformation `f`, and the stage's dependency
list.  At run time `f` receives the upstream value sequence and — as the
source's `run` actually passes — element `0` of the resolved client list
(`undefined`, i.e. `none`, when the list is empty). -/
inductive Enumerable (E C D : Type) : Type → Type 1 where
  | source {α : Type} (root : E → List α) (dependencies : DepList D) : Enumerable E C D α
  | chain {α β : Type} (previous : Enumerable E C D α)
      (f : List α → Option C → List β) (dependencies : DepList D) : Enumerable E C D β

namespace Enumerable

variable {E C D : Type} {α β γ : Type}

/-- The stage's own dependency list (the public `dependencies` field). -/
def dependencies : ∀ {α : Type}, Enumerable E C D α → DepList D
  | _, source _ d => d
  | _, chain _ _ d => d

/-- Largest dependency-list identity occurring anywhere in the chain; used
to allocate a fresh identity for a newly constructed array literal. -/
def maxId : ∀ {α : Type}, Enumerable E C D α → Nat
  | _, source _ d => d.id
  | _, chain prev _ d => max d.id prev.maxId

/--
Embedding of `run(event, clients)` (src/unnamed/part_001 lines 101-110):

if `this.dependencies === this.previous.dependencies` the previous stage is
run with the same client list, otherwise with its tail (`deps.slice(1)`,
and `[]` when `deps` is absent); in both branches the stored `f` receives
`deps[0]` (`undefined` when out of range) as its client argument.
-/
def run : ∀ {α : Type}, Enumerable E C D α → E → List C → List α
  | _, source root _, event, _ => root event
  | _, chain prev f deps, event, clients =>
    if deps.id = prev.dependencies.id then
      f (run prev event clients) clients.head?
    else
      f (run prev event clients.tail) clients.head?

/-- Instrumented `run`: same recursion, additionally returning the client
list each stage's `run` was invoked with (current stage first, root last). -/
def runTrace : ∀ {α : Type}, Enumerable E C D α → E → List C → List α × List (List C)
  | _, source root _, event, clients => (root event, [clients])
  | _, chain prev f deps, event, clients =>
    let down := if deps.id = prev.dependencies.id then clients else clients.tail
    let (vals, trace) := runTrace prev event down
    (f vals clients.head?, clients :: trace)

/-- Embedding of `flatMap` (src/unnamed/part_001 lines 66-80): chains a stage whose
stored transformation yields, per upstream element and in order, every
element of `handle value clients`; its dependency list is
`this.dependencies` itself when no dependency is declared, and the fresh
array `[input.depends].concat(this.dependencies)` otherwise. -/
def flatMap (prev : Enumerable E C D α) (handle : α → Option C → List β)
    (depends : Option D) : Enumerable E C D β :=
  .chain prev (fun values clients => values.flatMap (fun v => handle v clients))
    (match depends with
     | none => prev.dependencies
     | some d => ⟨prev.maxId + 1, d :: prev.dependencies.deps⟩)

/-- Embedding of `map` (src/unnamed/part_001 lines 48-56): defined through `flatMap` by
wrapping each handler result in a one-element sequence. -/
def map (prev : Enumerable E C D α) (handle : α → Option C → β)
    (depends : Option D) : Enumerable E C D β :=
  prev.flatMap (fun v clients => [handle v clients]) depends

/-- The buffering loop of `batched` (src/unnamed/part_001 lines 170-188):
push each value onto the current batch, emit the batch when
`size && batch.length === size` (note `0` is falsy in JS), and after the
loop emit the remaining batch when non-empty. -/
def batchLoop (size : Option Nat) : List α → List α → List (List α)
  | [], batch => if batch.length > 0 then [batch] else []
  | v :: rest, batch =>
    let batch' := batch ++ [v]
    if (match size with
        | some s => s ≠ 0 && batch'.length == s
        | none => false) then
      batch' :: batchLoop size rest []
    else
      batchLoop size rest batch'

/-- Embedding of `batched(size?)`: chains the buffering transformation, declaring
`this.dependencies` itself (identity preserved). -/
def batched (prev : Enumerable E C D α) (size : Option Nat) :
    Enumerable E C D (List α) :=
  .chain prev (fun values _ => batchLoop size values []) prev.dependencies

end Enumerable

/-! ## DynamoDB client (src/unnamed/part_002)

`V` is the type of a field's runtime value, `W` the store's wire-level
attribute value.  The field `Mapper` is the external codec collaborator.
JS objects keyed by strings (attribute maps, `RequestItems`, `Responses`)
become association lists `List (String × _)`; an absent JS property is
`Option.none`. -/

/-- External `Mapper` collaborator: codec between a runtime value and its
wire representation. -/
structure Mapper (V W : Type) where
  write : V → W
  read : W → V

/-- A runtime key value as the client's `KeyValue` type ranges over it:
`bare` is the single hash-key value, `tuple` the composite `[hash, sort]`
pair, and `obj` a JS object keyed by field names (what `readKey` actually
constructs). -/
inductive KeyValue (V : Type) where
  | bare (v : V)
  | tuple (h s : V)
  | obj (fields : List (String × V))
deriving DecidableEq

/-- JS property read `m[k]` on a string-keyed object. -/
def assocLookup {β : Type} (m : List (String × β)) (k : String) : Option β :=
  (m.find? (fun p => p.1 == k)).map Prod.snd

/-- Embedding of `writeKey` for a hash-only key (src/unnamed/part_002 lines 32-39):
`k ↦ {[key]: hashKeyMapper.write(k)}`. -/
def writeKeySingle {V W : Type} (key : String) (hashKeyMapper : Mapper V W)
    (k : V) : List (String × W) :=
  [(key, hashKeyMapper.write k)]

/-- Embedding of `readKey` for a hash-only key (src/unnamed/part_002 lines 37-39):
`k ↦ {[key]: hashKeyMapper.read(k[key])}` — note that it builds a
field-keyed object, not the bare key value its declared return type
promises.  `none` models the JS property read `k[key]` coming back
`undefined`. -/
def readKeySingle {V W : Type} (key : String) (hashKeyMapper : Mapper V W)
    (m : List (String × W)) : Option (KeyValue V) :=
  (assocLookup m key).map (fun w => .obj [(key, hashKeyMapper.read w)])

/-- Embedding of `writeKey` for a composite key (src/unnamed/part_002 lines 46-49):
`k ↦ {[hk]: hashKeyMapper.write(k[0]), [sk]: sortKeyMapper.write(k[1])}`. -/
def writeKeyComposite {V W : Type} (hk sk : String)
    (hashKeyMapper sortKeyMapper : Mapper V W) (h s : V) : List (String × W) :=
  [(hk, hashKeyMapper.write h), (sk, sortKeyMapper.write s)]

/-- Embedding of `readKey` for a composite key (src/unnamed/part_002 lines 50-53):
`k ↦ {[hk]: hashKeyMapper.read(k[hk]), [sk]: sortKeyMapper.read(k[sk])}` —
again a field-keyed object, not the `[hash, sort]` tuple the declared
return type promises. -/
def readKeyComposite {V W : Type} (hk sk : String)
    (hashKeyMapper sortKeyMapper : Mapper V W) (m : List (String × W)) :
    Option (KeyValue V) :=
  match assocLookup m hk, assocLookup m sk with
  | some hw, some sw =>
    some (.obj [(hk, hashKeyMapper.read hw), (sk, sortKeyMapper.read sw)])
  | _, _ => none

/-- One element of a `batchWriteItem` request: a write request wrapping the
put item payload. -/
structure WriteRequest (W : Type) where
  PutRequest : Option W
deriving DecidableEq

/-- The response shape `batchPut` inspects: the optional
`UnprocessedItems` map from table name to write requests. -/
structure BatchWriteResponse (W : Type) where
  UnprocessedItems : Option (List (String × List (WriteRequest W)))

/-- The single `RequestItems` payload `batchPut` submits
(src/unnamed/part_002 lines 115-125): every record of the batch, in order,
wrapped as a `PutRequest` of its mapper-written item. -/
def batchPutRequest {V W : Type} (tableName : String) (mapper : Mapper V W)
    (batch : List V) : List (String × List (WriteRequest W)) :=
  [(tableName, batch.map (fun record => ⟨some (mapper.write record)⟩))]

/-- Embedding of `batchPut` (src/unnamed/part_002 lines 113-136): submits
`batchPutRequest` once to the store and returns
`result.UnprocessedItems ? result.UnprocessedItems[tableName] : []`.
The outer `Option` models that `UnprocessedItems[tableName]` is the JS
`undefined` when the map is present but carries no entry for the table. -/
def batchPut {V W : Type}
    (store : List (String × List (WriteRequest W)) → BatchWriteResponse W)
    (tableName : String) (mapper : Mapper V W) (batch : List V) :
    Option (List (WriteRequest W)) :=
  let result := store (batchPutRequest tableName mapper batch)
  match result.UnprocessedItems with
  | none => some []
  | some unprocessed => assocLookup unprocessed tableName

/-- Embedding of `batchGet`'s response handling (src/unnamed/part_002 lines 80-86): when
the response has a `Responses` section with an entry for the table, decode
each element with `decodeItem` (standing for
`item => mapper.read({M: item.Item})`); otherwise `throw new Error('TODO')`.
The JS truthiness test `if (items)` is satisfied by an empty array, so an
empty entry yields `ok []`, not an error. -/
def batchGet {V W : Type} (tableName : String) (decodeItem : W → V)
    (responses : Option (List (String × List W))) : Except String (List V) :=
  match responses with
  | some rs =>
    match assocLookup rs tableName with
    | some items => .ok (items.map decodeItem)
    | none => .error "TODO"
  | none => .error "TODO"

/-- Embedding of `scan`'s response handling (src/unnamed/part_002 lines 151-155): decode
`result.Items` elementwise when present, and return `[]` when the response
carries no `Items` field.  Total — no error path. -/
def scan {V W : Type} (decodeItem : W → V) (items : Option (List W)) :
    List V :=
  match items with
  | some l => l.map decodeItem
  | none => []

/-! ## Expression namespace, writer and condition compiler

The `Writer`, `Writer.Namespace`, DSL and `Condition` compiler sources are
not part of the provided files — only their caller (`DynamoDBClient.query`)
is — so they are modelled from the spec here and the `query` compilation
pipeline (src/unnamed/part_002 lines 162-196) is embedded on top of them. -/

/-- Modelled from the spec: the `ExpressionNamespace` (`Writer.Namespace`),
whose source is not under the provided files — "per-request counter state
generating unique name tokens (`#n0, #n1, …`) and value tokens
(`:v0, :v1, …`)", shared across all sub-expressions compiled for a single
request. -/
structure ExprNamespace where
  nameCount : Nat
  valueCount : Nat
deriving DecidableEq

/-- The `i`-th name token `#ni` of the namespace. -/
def nameToken (i : Nat) : String := "#n" ++ Nat.repr i

/-- The `i`-th value token `:vi` of the namespace. -/
def valueToken (i : Nat) : String := ":v" ++ Nat.repr i

/-- A compiled wire fragment: `{Expression, ExpressionAttributeNames,
ExpressionAttributeValues}` (spec §6, wire expression format). -/
structure CompiledExpr (W : Type) where
  Expression : String
  ExpressionAttributeNames : List (String × String)
  ExpressionAttributeValues : List (String × W)
deriving DecidableEq

/-- Modelled from the spec: the `ExpressionWriter` (`Writer`), whose source
is not under the provided files — it accumulates one fragment's expression
text and placeholder→name / placeholder→value maps while drawing tokens
from the shared namespace.  Sharing of the mutable namespace between
writers of one request is modelled by threading the namespace state from
one writer's final state into the next writer's initial state. -/
structure ExprWriter (W : Type) where
  ns : ExprNamespace
  expression : String
  names : List (String × String)
  values : List (String × W)

/-- A fresh writer over a (shared) namespace: `new Writer(namespace)`. -/
def ExprWriter.init {W : Type} (ns : ExprNamespace) : ExprWriter W :=
  ⟨ns, "", [], []⟩

/-- Modelled from the spec: allocate (or reuse, "a name placeholder per
distinct referenced path") the placeholder for a field path. -/
def ExprWriter.writeName {W : Type} (w : ExprWriter W) (path : String) :
    String × ExprWriter W :=
  match (w.names.find? (fun p => p.2 == path)).map Prod.fst with
  | some tok => (tok, w)
  | none =>
    let tok := nameToken w.ns.nameCount
    (tok, { w with ns := ⟨w.ns.nameCount + 1, w.ns.valueCount⟩,
                   names := w.names ++ [(tok, path)] })

/-- Modelled from the spec: allocate (or reuse, "a value placeholder per
distinct literal") the placeholder for a literal wire value. -/
def ExprWriter.writeValue {W : Type} [BEq W] (w : ExprWriter W) (v : W) :
    String × ExprWriter W :=
  match (w.values.find? (fun p => p.2 == v)).map Prod.fst with
  | some tok => (tok, w)
  | none =>
    let tok := valueToken w.ns.valueCount
    (tok, { w with ns := ⟨w.ns.nameCount, w.ns.valueCount + 1⟩,
                   values := w.values ++ [(tok, v)] })

/-- Append raw text to the writer's expression. -/
def ExprWriter.writeText {W : Type} (w : ExprWriter W) (s : String) :
    ExprWriter W :=
  { w with expression := w.expression ++ s }

/-- Extract the compiled fragment: `writer.toExpression()`. -/
def ExprWriter.toExpression {W : Type} (w : ExprWriter W) : CompiledExpr W :=
  ⟨w.expression, w.names, w.values⟩

/-- Modelled from the spec: the condition AST — "variants
{comparison(path, operator, value), and, or, not}" (the function-call
variant plays no role in the claims). -/
inductive Cond (W : Type) where
  | comparison (path : String) (op : String) (value : W)
  | and (l r : Cond W)
  | or (l r : Cond W)
  | not (c : Cond W)

/-- Modelled from the spec: compiling a condition tree into a writer
(`DSL.Synthesize` / `writer.writeNode`): one walk, placeholders drawn from
the shared namespace, boolean combinators parenthesising their operands. -/
def Cond.synthesize {W : Type} [BEq W] : Cond W → ExprWriter W → ExprWriter W
  | .comparison path op value, w =>
    let r1 := w.writeName path
    let r2 := r1.2.writeValue value
    r2.2.writeText (r1.1 ++ " " ++ op ++ " " ++ r2.1)
  | .and l r, w =>
    let w1 := (l.synthesize (w.writeText "(")).writeText ") AND ("
    (r.synthesize w1).writeText ")"
  | .or l r, w =>
    let w1 := (l.synthesize (w.writeText "(")).writeText ") OR ("
    (r.synthesize w1).writeText ")"
  | .not c, w =>
    (c.synthesize (w.writeText "NOT (")).writeText ")"

/-- The request payload `query` submits (src/unnamed/part_002 lines
189-196), restricted to the expression-bearing fields the claims are
about. -/
structure QueryRequest (W : Type) where
  TableName : String
  KeyConditionExpression : String
  FilterExpression : Option String
  ExpressionAttributeNames : List (String × String)
  ExpressionAttributeValues : List (String × W)

/-- The filter compilation step of `query` (src/unnamed/part_002 lines
165-171): when a filter is supplied, compile it through a fresh writer over
the shared namespace, before the key condition is written; returns the
compiled filter fragment and the namespace state the key-condition writer
continues from. -/
def compileQueryFilter {W : Type} [BEq W] (ns : ExprNamespace)
    (filter : Option (Cond W)) : Option (CompiledExpr W) × ExprNamespace :=
  match filter with
  | none => (none, ns)
  | some f =>
    let fw := f.synthesize (ExprWriter.init ns)
    (some fw.toExpression, fw.ns)

/-- The key-condition compilation step of `query` (src/unnamed/part_002
lines 173-187): the hash-key equality condition, AND-combined with the
sort-key condition when the condition is the `[hashValue, sortCond]`
array variant, written into the query writer. -/
def compileQueryKeyCondition {V W : Type} [BEq W] (ns : ExprNamespace)
    (hashKeyName : String) (hashKeyMapper : Mapper V W) (hashKey : V)
    (sortKeyCond : Option (Cond W)) : CompiledExpr W :=
  let hashKeyValue := hashKeyMapper.write hashKey
  let hashKeyCond : Cond W := .comparison hashKeyName "=" hashKeyValue
  let keyCond := match sortKeyCond with
    | some sc => Cond.and hashKeyCond sc
    | none => hashKeyCond
  (keyCond.synthesize (ExprWriter.init ns)).toExpression

/-- The compilation pipeline of `query` (src/unnamed/part_002 lines
162-196): one fresh namespace per request, filter compiled first through
its own writer, key condition compiled next through the query writer over
the same namespace; the submitted request takes `KeyConditionExpression`,
`ExpressionAttributeNames` and `ExpressionAttributeValues` from the query
writer's fragment and only `FilterExpression` from the filter's.  Returns
the request together with the filter fragment for inspection. -/
def queryCompile {V W : Type} [BEq W] (tableName hashKeyName : String)
    (hashKeyMapper : Mapper V W) (hashKey : V) (sortKeyCond : Option (Cond W))
    (filter : Option (Cond W)) : QueryRequest W × Option (CompiledExpr W) :=
  let ns0 : ExprNamespace := ⟨0, 0⟩
  let (filterExpr, ns1) := compileQueryFilter ns0 filter
  let queryExpr :=
    compileQueryKeyCondition ns1 hashKeyName hashKeyMapper hashKey sortKeyCond
  ({ TableName := tableName,
     KeyConditionExpression := queryExpr.Expression,
     FilterExpression := filterExpr.map CompiledExpr.Expression,
     ExpressionAttributeNames := queryExpr.ExpressionAttributeNames,
     ExpressionAttributeValues := queryExpr.ExpressionAttributeValues },
   filterExpr)

/-! ## Helper lemmas about the pipeline engine -/

namespace Enumerable

variable {E C D : Type} {α β γ : Type}

/-- A stage's own dependency-list identity never exceeds the chain maximum. -/
theorem dependencies_id_le_maxId (e : Enumerable E C D α) :
    e.dependencies.id ≤ e.maxId := by
  cases e with
  | source root d => simp [dependencies, maxId]
  | chain prev f d => simp [dependencies, maxId]

/-- Unfolding equation of `run` at a `chain` stage. -/
theorem run_chain (prev : Enumerable E C D α) (f : List α → Option C → List β)
    (deps : DepList D) (event : E) (clients : List C) :
    (Enumerable.chain prev f deps).run event clients
      = if deps.id = prev.dependencies.id then
          f (prev.run event clients) clients.head?
        else
          f (prev.run event clients.tail) clients.head? := rfl

/-- Unfolding equation of `runTrace` at a `chain` stage. -/
theorem runTrace_chain (prev : Enumerable E C D α)
    (f : List α → Option C → List β) (deps : DepList D)
    (event : E) (clients : List C) :
    (Enumerable.chain prev f deps).runTrace event clients
      = (f (prev.runTrace event
              (if deps.id = prev.dependencies.id then clients
               else clients.tail)).1 clients.head?,
         clients :: (prev.runTrace event
              (if deps.id = prev.dependencies.id then clients
               else clients.tail)).2) := rfl

/-- Unfolding of `flatMap` with no declared dependency: the chained stage
propagates the predecessor's dependency-list object itself. -/
theorem flatMap_none_eq (prev : Enumerable E C D α)
    (handle : α → Option C → List β) :
    prev.flatMap handle none
      = .chain prev (fun values clients => values.flatMap (fun v => handle v clients))
          prev.dependencies := rfl

/-- Unfolding of `flatMap` with a declared dependency: the chained stage
carries the fresh list with the new dependency prepended. -/
theorem flatMap_some_eq (prev : Enumerable E C D α)
    (handle : α → Option C → List β) (d : D) :
    prev.flatMap handle (some d)
      = .chain prev (fun values clients => values.flatMap (fun v => handle v clients))
          ⟨prev.maxId + 1, d :: prev.dependencies.deps⟩ := rfl

/-- Declaring a dependency allocates a list whose identity differs from the
predecessor's (a fresh array literal is a different object). -/
theorem flatMap_some_dependencies_id_ne (prev : Enumerable E C D α)
    (handle : α → Option C → List β) (d : D) :
    (prev.flatMap handle (some d)).dependencies.id ≠ prev.dependencies.id := by
  have h := dependencies_id_le_maxId prev
  show prev.maxId + 1 ≠ prev.dependencies.id
  omega

/-- Running a dependency-free `flatMap` stage: predecessor re-run with the
same client list, handler fed client `0`. -/
theorem run_flatMap_none (prev : Enumerable E C D α)
    (handle : α → Option C → List β) (event : E) (clients : List C) :
    (prev.flatMap handle none).run event clients
      = (prev.run event clients).flatMap (fun v => handle v clients.head?) := by
  rw [flatMap_none_eq, run_chain, if_pos rfl]

/-- Running a dependency-declaring `flatMap` stage: predecessor run with
the client-list tail, handler fed client `0`. -/
theorem run_flatMap_some (prev : Enumerable E C D α)
    (handle : α → Option C → List β) (d : D) (event : E) (clients : List C) :
    (prev.flatMap handle (some d)).run event clients
      = (prev.run event clients.tail).flatMap (fun v => handle v clients.head?) := by
  have h := dependencies_id_le_maxId prev
  have hne : ({ id := prev.maxId + 1, deps := d :: prev.dependencies.deps } :
      DepList D).id ≠ prev.dependencies.id := by
    show prev.maxId + 1 ≠ prev.dependencies.id
    omega
  rw [flatMap_some_eq, run_chain, if_neg hne]

/-- The instrumented runner computes the same value sequence as `run`. -/
theorem runTrace_fst (e : Enumerable E C D α) (event : E) (clients : List C) :
    (e.runTrace event clients).1 = e.run event clients := by
  induction e generalizing clients with
  | source root d => rfl
  | chain prev f d ih =>
    rw [runTrace_chain, run_chain]
    split
    · exact congrArg (fun l => f l clients.head?) (ih clients)
    · exact congrArg (fun l => f l clients.head?) (ih clients.tail)

/-- Concatenating the emitted batches restores the upstream sequence after
the pending batch: nothing is lost, duplicated or reordered. -/
theorem batchLoop_flatten (size : Option Nat) :
    ∀ (l batch : List α), (batchLoop size l batch).flatten = batch ++ l := by
  intro l
  induction l with
  | nil =>
    intro batch
    simp only [batchLoop]
    split
    · simp
    · rename_i hb
      have : batch = [] := by
        cases batch with
        | nil => rfl
        | cons x xs => simp at hb
      simp [this]
  | cons v rest ih =>
    intro batch
    simp only [batchLoop]
    split
    · simp [ih]
    · rw [ih (batch ++ [v])]
      simp

/-- Every emitted batch is non-empty. -/
theorem batchLoop_mem_ne_nil (size : Option Nat) :
    ∀ (l batch : List α), ∀ g ∈ batchLoop size l batch, g ≠ [] := by
  intro l
  induction l with
  | nil =>
    intro batch g hg
    simp only [batchLoop] at hg
    split at hg
    · rename_i hb
      rw [List.mem_singleton] at hg
      subst hg
      intro hnil
      rw [hnil] at hb
      simp at hb
    · simp at hg
  | cons v rest ih =>
    intro batch g hg
    simp only [batchLoop] at hg
    split at hg
    · rcases List.mem_cons.mp hg with h | h
      · subst h
        simp
      · exact ih [] g h
    · exact ih (batch ++ [v]) g hg

/-- With a positive size `s` and a pending batch shorter than `s`, every
emitted batch but the last has length exactly `s` and the last has length
at most `s`. -/
theorem batchLoop_lengths (s : Nat) (hs : 0 < s) :
    ∀ (l batch : List α), batch.length < s →
      (∀ g ∈ (batchLoop (some s) l batch).dropLast, g.length = s)
      ∧ (∀ g, (batchLoop (some s) l batch).getLast? = some g →
          g.length ≤ s) := by
  intro l
  induction l with
  | nil =>
    intro batch hb
    constructor
    · intro g hg
      simp only [batchLoop] at hg
      split at hg <;> simp at hg
    · intro g hg
      simp only [batchLoop] at hg
      split at hg
      · simp at hg
        subst hg
        omega
      · simp at hg
  | cons v rest ih =>
    intro batch hb
    simp only [batchLoop]
    split
    · rename_i hfull
      simp only [decide_eq_true_eq, Bool.and_eq_true, ne_eq, beq_iff_eq] at hfull
      have hlen : (batch ++ [v]).length = s := hfull.2
      have ih0 := ih [] (by simpa using hs)
      constructor
      · intro g hg
        cases htail : batchLoop (some s) rest ([] : List α) with
        | nil =>
          rw [htail] at hg
          simp at hg
        | cons x xs =>
          rw [htail, List.dropLast_cons₂] at hg
          rcases List.mem_cons.mp hg with h | h
          · subst h
            exact hlen
          · have := ih0.1 g
            rw [htail] at this
            exact this h
      · intro g hg
        cases htail : batchLoop (some s) rest ([] : List α) with
        | nil =>
          rw [htail] at hg
          simp at hg
          subst hg
          omega
        | cons x xs =>
          rw [htail, List.getLast?_cons_cons] at hg
          have := ih0.2 g
          rw [htail] at this
          exact this hg
    · rename_i hfull
      simp only [decide_eq_true_eq, Bool.and_eq_true, ne_eq, beq_iff_eq] at hfull
      have hne : (batch ++ [v]).length ≠ s := by
        intro h
        exact hfull ⟨by omega, h⟩
      have hlt : (batch ++ [v]).length < s := by
        simp only [List.length_append, List.length_singleton] at hne ⊢
        omega
      exact ih (batch ++ [v]) hlt

/-- With no size argument the loop emits the whole upstream sequence
(prefixed by the pending batch) as one group, or nothing when empty. -/
theorem batchLoop_none :
    ∀ (l batch : List α),
      batchLoop none l batch
        = if (batch ++ l).isEmpty then [] else [batch ++ l] := by
  intro l
  induction l with
  | nil =>
    intro batch
    simp only [batchLoop]
    cases batch <;> simp
  | cons v rest ih =>
    intro batch
    simp only [batchLoop]
    rw [ih (batch ++ [v])]
    simp

end Enumerable

/-! ## Claims about the pipeline engine -/

open Enumerable in
/--
C7: in `map`/`flatMap`, declaring a new dependency produces the
predecessor's list with the new dependency prepended at index 0 (the
predecessor's entries unchanged and in order) under a fresh object
identity, while declaring no dependency propagates the very same
dependency-list object (identity included).
-/
theorem claim_C7_dependency_merge {E C D : Type} {α β : Type}
    (prev : Enumerable E C D α) (handle : α → Option C → List β)
    (handle1 : α → Option C → β) (d : D) :
    (prev.flatMap handle (some d)).dependencies.deps
        = d :: prev.dependencies.deps
    ∧ (prev.flatMap handle (some d)).dependencies.deps.head? = some d
    ∧ (prev.flatMap handle (some d)).dependencies.id ≠ prev.dependencies.id
    ∧ (prev.flatMap handle none).dependencies = prev.dependencies
    ∧ (prev.map handle1 (some d)).dependencies.deps
        = d :: prev.dependencies.deps
    ∧ (prev.map handle1 none).dependencies = prev.dependencies := by
  refine ⟨rfl, rfl, flatMap_some_dependencies_id_ne prev handle d, rfl, rfl, rfl⟩

open Enumerable in
/--
C5: `batched(size)` groups the upstream sequence in arrival order —
concatenating the groups restores the input, every emitted group is
non-empty, every group but the last has length exactly `size` and the last
at most `size` (so a shorter final group is emitted iff non-empty);
`batched()` with no size collects everything into a single group (none for
an empty upstream); concretely `batched(3)` over `[0,1,2,3,4]` yields
`[[0,1,2],[3,4]]` and `batched()` over `[]` yields `[]`.
-/
theorem claim_C5_batched {α : Type} (s : Nat) (hs : 0 < s) (l : List α) :
    (batchLoop (some s) l []).flatten = l
    ∧ (∀ g ∈ batchLoop (some s) l [], g ≠ [])
    ∧ (∀ g ∈ (batchLoop (some s) l []).dropLast, g.length = s)
    ∧ (∀ g, (batchLoop (some s) l []).getLast? = some g → g.length ≤ s)
    ∧ batchLoop (none : Option Nat) l [] = (if l.isEmpty then [] else [l])
    ∧ ((Enumerable.source (fun _ => [0, 1, 2, 3, 4]) ⟨0, []⟩ :
          Enumerable Unit Nat Nat Nat).batched (some 3)).run () []
        = [[0, 1, 2], [3, 4]]
    ∧ ((Enumerable.source (fun _ => ([] : List Nat)) ⟨0, []⟩ :
          Enumerable Unit Nat Nat Nat).batched none).run () [] = [] := by
  have hlen := batchLoop_lengths s hs l ([] : List α) (by simpa using hs)
  refine ⟨by simpa using batchLoop_flatten (some s) l [],
    batchLoop_mem_ne_nil (some s) l [], hlen.1, hlen.2,
    by simpa using batchLoop_none l [], by decide, by decide⟩

/-- Witness for C5 at `size = 3` over `[10,20,30,40,50]`. -/
theorem claim_C5_batched_witness :
    (Enumerable.batchLoop (some 3) [10, 20, 30, 40, 50] []).flatten
        = [10, 20, 30, 40, 50]
    ∧ ∀ g ∈ (Enumerable.batchLoop (some 3) [10, 20, 30, 40, 50]
        ([] : List Nat)).dropLast, g.length = 3 :=
  ⟨(claim_C5_batched 3 (by decide) [10, 20, 30, 40, 50]).1,
   (claim_C5_batched 3 (by decide) [10, 20, 30, 40, 50]).2.2.1⟩

open Enumerable in
/--
C1: `run` recursion — a stage that declared its own dependency (so its
dependency list differs, by identity, from its predecessor's) invokes the
predecessor with the tail of the client list and hands client `0` to its
own transformation, while a stage whose dependency list is the very same
object invokes the predecessor with the unchanged client list; in the
chain `s0` (no dependency) → `s1` (dep `1`) → `s2` (dep `2`), running `s2`
with clients `[2, 1]` invokes `s1` with `[1]` and `s0` with `[]`.
-/
theorem claim_C1_run_client_slicing :
    (∀ (E C D : Type) (α β : Type) (prev : Enumerable E C D α)
        (handle : α → Option C → List β) (d : D) (event : E) (clients : List C),
      (prev.flatMap handle (some d)).runTrace event clients
        = ((prev.runTrace event clients.tail).1.flatMap
             (fun v => handle v clients.head?),
           clients :: (prev.runTrace event clients.tail).2))
    ∧ (∀ (E C D : Type) (α β : Type) (prev : Enumerable E C D α)
        (handle : α → Option C → List β) (event : E) (clients : List C),
      (prev.flatMap handle none).runTrace event clients
        = ((prev.runTrace event clients).1.flatMap
             (fun v => handle v clients.head?),
           clients :: (prev.runTrace event clients).2))
    ∧ (∀ (E C D : Type) (α : Type) (e : Enumerable E C D α)
        (event : E) (clients : List C),
      (e.runTrace event clients).1 = e.run event clients)
    ∧ ((((Enumerable.source (fun _ => ([] : List Nat)) ⟨0, []⟩ :
            Enumerable Unit Nat Nat Nat).flatMap (fun v _ => [v])
            (some 1)).flatMap (fun v _ => [v]) (some 2)).runTrace
          () [2, 1]).2 = [[2, 1], [1], []] := by
  refine ⟨?_, ?_, fun E C D α e event clients => runTrace_fst .., by decide⟩
  · intro E C D α β prev handle d event clients
    have h := dependencies_id_le_maxId prev
    have hne : ({ id := prev.maxId + 1, deps := d :: prev.dependencies.deps } :
        DepList D).id ≠ prev.dependencies.id := by
      show prev.maxId + 1 ≠ prev.dependencies.id
      omega
    rw [flatMap_some_eq, runTrace_chain, if_neg hne]
  · intro E C D α β prev handle event clients
    rw [flatMap_none_eq, runTrace_chain, if_pos rfl]

open Enumerable in
/--
C6: `map` is `flatMap` with the handler result wrapped in a one-element
sequence, `flatMap` yields the handler's zero-or-more results per input
element in order, and draining `stage.map(f).map(g)` over an input
sequence yields exactly the in-order image under `g ∘ f`.
-/
theorem claim_C6_map_fusion {E C D : Type} {α β γ : Type}
    (s : Enumerable E C D α) (f : α → β) (g : β → γ)
    (event : E) (clients : List C) :
    ((s.map (fun v _ => f v) none).map (fun v _ => g v) none).run event clients
        = (s.run event clients).map (fun x => g (f x))
    ∧ (∀ (handle : α → Option C → β) (depends : Option D),
        s.map handle depends
          = s.flatMap (fun v c => [handle v c]) depends)
    ∧ (∀ (handle : α → Option C → List β),
        (s.flatMap handle none).run event clients
          = (s.run event clients).flatMap (fun v => handle v clients.head?)) := by
  refine ⟨?_, fun handle depends => rfl, fun handle => run_flatMap_none ..⟩
  rw [map, run_flatMap_none, map, run_flatMap_none]
  generalize s.run event clients = l
  induction l with
  | nil => rfl
  | cons a t ih => simp [List.flatMap_cons, ih]

/-! ## Claims about the DynamoDB client -/

/--
C3 (code bug): with identity field mappers (two-sided inverses),
`readKey(writeKey(k))` does not return `k`: for the hash-only shape it
returns the field-keyed record `{key: k}` instead of the bare value, and
for the composite shape the record `{hk: h, sk: s}` instead of the
`[h, s]` tuple — `readKey` wraps the decoded values in an object, while
the declared `KeyValue` return type (and the spec's round-trip law)
requires the bare value / tuple.
-/
theorem claim_C3_readKey_writeKey_not_inverse :
    readKeySingle "key" ⟨id, id⟩
        (writeKeySingle "key" (⟨id, id⟩ : Mapper String String) "a")
      = some (KeyValue.obj [("key", "a")])
    ∧ (KeyValue.obj [("key", "a")] : KeyValue String) ≠ KeyValue.bare "a"
    ∧ readKeyComposite "hk" "sk" ⟨id, id⟩ ⟨id, id⟩
        (writeKeyComposite "hk" "sk" (⟨id, id⟩ : Mapper String String)
          ⟨id, id⟩ "h" "s")
      = some (KeyValue.obj [("hk", "h"), ("sk", "s")])
    ∧ (KeyValue.obj [("hk", "h"), ("sk", "s")] : KeyValue String)
        ≠ KeyValue.tuple "h" "s" := by
  refine ⟨by decide, by decide, by decide, by decide⟩

/--
C4: `batchPut` submits every record of the batch, in order, as the
table's entry of a single batch-write request, and returns exactly the
`UnprocessedItems` entry the store reports for the table — `[]` when the
store persists everything (no `UnprocessedItems`), and `[r2]` when the
store rejects exactly `r2` of `[r1, r2, r3]`; there is no retry — the
result is whatever the single response said.
-/
theorem claim_C4_batchPut {V W : Type}
    (store : List (String × List (WriteRequest W)) → BatchWriteResponse W)
    (tableName : String) (mapper : Mapper V W) :
    (∀ batch, batchPutRequest tableName mapper batch
        = [(tableName, batch.map (fun r => ⟨some (mapper.write r)⟩))])
    ∧ (∀ batch,
        (store (batchPutRequest tableName mapper batch)).UnprocessedItems
            = none →
        batchPut store tableName mapper batch = some [])
    ∧ (∀ batch u,
        (store (batchPutRequest tableName mapper batch)).UnprocessedItems
            = some u →
        batchPut store tableName mapper batch = assocLookup u tableName)
    ∧ (∀ r1 r2 r3,
        (store (batchPutRequest tableName mapper [r1, r2, r3])).UnprocessedItems
            = some [(tableName, [⟨some (mapper.write r2)⟩])] →
        batchPut store tableName mapper [r1, r2, r3]
            = some [⟨some (mapper.write r2)⟩]) := by
  refine ⟨fun batch => rfl, ?_, ?_, ?_⟩
  · intro batch h
    simp only [batchPut, h]
  · intro batch u h
    simp only [batchPut, h]
  · intro r1 r2 r3 h
    simp only [batchPut, h, assocLookup, List.find?]
    simp

/-- A store used to witness C4: it rejects the middle record of a
three-record batch and accepts everything else. -/
def sampleBatchStore :
    List (String × List (WriteRequest String)) → BatchWriteResponse String :=
  fun request =>
    if request.map (fun p => p.2.length) = [3] then
      ⟨some [("t", [⟨some "r2"⟩])]⟩
    else
      ⟨none⟩

/-- Witness for C4 against `sampleBatchStore`. -/
theorem claim_C4_batchPut_witness :
    batchPut sampleBatchStore "t" (⟨id, id⟩ : Mapper String String) ["r1"]
        = some []
    ∧ batchPut sampleBatchStore "t" (⟨id, id⟩ : Mapper String String)
        ["r1", "r2", "r3"] = some [⟨some "r2"⟩] :=
  ⟨(claim_C4_batchPut sampleBatchStore "t" ⟨id, id⟩).2.1 ["r1"] (by decide),
   (claim_C4_batchPut sampleBatchStore "t" ⟨id, id⟩).2.2.2 "r1" "r2" "r3"
     (by decide)⟩

/--
C8: `batchGet` returns the generic error exactly when the response has no
`Responses` section at all or no entry for the table inside it; whenever
the entry exists (even empty — `[]` is truthy in JS) it returns the
decoded records of that entry, with no separate reporting of individually
missing keys.
-/
theorem claim_C8_batchGet {V W : Type} (tableName : String)
    (decodeItem : W → V) :
    (∀ responses, batchGet tableName decodeItem responses = .error "TODO"
        ↔ (responses = none
           ∨ ∃ rs, responses = some rs ∧ assocLookup rs tableName = none))
    ∧ (∀ rs items, assocLookup rs tableName = some items →
        batchGet tableName decodeItem (some rs)
          = .ok (items.map decodeItem)) := by
  constructor
  · intro responses
    cases responses with
    | none => simp [batchGet]
    | some rs =>
      cases h : assocLookup rs tableName with
      | none =>
        have hb : batchGet tableName decodeItem (some rs) = .error "TODO" := by
          simp [batchGet, h]
        rw [hb]
        exact iff_of_true rfl (Or.inr ⟨rs, rfl, h⟩)
      | some items =>
        have hb : batchGet tableName decodeItem (some rs)
            = .ok (items.map decodeItem) := by
          simp [batchGet, h]
        rw [hb]
        constructor
        · intro heq
          exact absurd heq (by simp)
        · rintro (hno | ⟨rs', hrs', hlook⟩)
          · exact absurd hno (by simp)
          · obtain rfl := Option.some_inj.mp hrs'
            rw [h] at hlook
            exact absurd hlook (by simp)
  · intro rs items h
    simp [batchGet, h]

/-- Witness for C8: a present table entry decodes; an absent `Responses`
section errors. -/
theorem claim_C8_batchGet_witness :
    batchGet "t" (fun w : String => w) (some [("t", ["w"])]) = .ok ["w"]
    ∧ batchGet "t" (fun w : String => w) none = .error "TODO" :=
  ⟨(claim_C8_batchGet "t" (fun w : String => w)).2 [("t", ["w"])] ["w"]
     (by decide),
   ((claim_C8_batchGet "t" (fun w : String => w)).1 none).mpr (Or.inl rfl)⟩

/--
C9 (implicit): `scan` never errors on a missing result section — a
response without `Items` yields `[]`, and one with `Items` yields the
decoded records — unlike `batchGet`, which raises the generic error in
the analogous no-payload situation.
-/
theorem claim_C9_scan_missing_items {V W : Type} (decodeItem : W → V) :
    scan decodeItem none = ([] : List V)
    ∧ (∀ items, scan decodeItem (some items) = items.map decodeItem)
    ∧ (∀ tableName, batchGet tableName decodeItem none
        = .error "TODO") :=
  ⟨rfl, fun items => rfl, fun tableName => rfl⟩

/-- Evaluation of the query compilation pipeline for a key condition on
field `kh` with an independent single-comparison filter on field `kf`:
the filter, compiled first through the shared namespace, receives
placeholders `#n0`/`:v0`, the key condition `#n1`/`:v1`; the request
carries only the key-condition writer's maps. -/
theorem queryCompile_single_comparison_filter (tn kh kf op v hv : String) :
    queryCompile tn kh (⟨id, id⟩ : Mapper String String) hv none
        (some (Cond.comparison kf op v))
      = ({ TableName := tn, KeyConditionExpression := "#n1 = :v1",
           FilterExpression := some ("#n0" ++ " " ++ op ++ " " ++ ":v0"),
           ExpressionAttributeNames := [("#n1", kh)],
           ExpressionAttributeValues := [(":v1", hv)] },
         some ⟨"#n0" ++ " " ++ op ++ " " ++ ":v0", [("#n0", kf)],
           [(":v0", v)]⟩) := by
  simp only [queryCompile, compileQueryFilter, compileQueryKeyCondition,
    Cond.synthesize, ExprWriter.writeName, ExprWriter.writeValue,
    ExprWriter.writeText, ExprWriter.init, ExprWriter.toExpression,
    List.find?_nil, Option.map_none', Option.map_some']
  rfl

/--
C2: the filter is compiled through the same namespace as the key
condition — a key condition on field `k` and an independent filter
referencing the same field `k` get the distinct placeholders `#n0`/`:v0`
(filter, compiled first) and `#n1`/`:v1` (key condition), two distinct
compiled fragments, and placeholder maps with no name or value collision
between the two.
-/
theorem claim_C2_shared_namespace_no_collision
    (tableName k op v hv : String) :
    (queryCompile tableName k (⟨id, id⟩ : Mapper String String) hv none
        (some (Cond.comparison k op v))).2
      = some ⟨"#n0" ++ " " ++ op ++ " " ++ ":v0", [("#n0", k)], [(":v0", v)]⟩
    ∧ (queryCompile tableName k (⟨id, id⟩ : Mapper String String) hv none
        (some (Cond.comparison k op v))).1.KeyConditionExpression
      = "#n1 = :v1"
    ∧ (queryCompile tableName k (⟨id, id⟩ : Mapper String String) hv none
        (some (Cond.comparison k op v))).1.ExpressionAttributeNames
      = [("#n1", k)]
    ∧ (queryCompile tableName k (⟨id, id⟩ : Mapper String String) hv none
        (some (Cond.comparison k op v))).1.ExpressionAttributeValues
      = [(":v1", hv)]
    ∧ ("#n0" : String) ≠ "#n1"
    ∧ ((":v0" : String) ≠ ":v1")
    ∧ ("#n0" ++ " " ++ op ++ " " ++ ":v0") ≠ "#n1 = :v1" := by
  have hq := queryCompile_single_comparison_filter tableName k k op v hv
  refine ⟨by rw [hq], by rw [hq], by rw [hq], by rw [hq],
    by decide, by decide, ?_⟩
  intro h
  have h2 : ("#n0" ++ " " ++ op ++ " " ++ ":v0").data.take 3
      = ("#n1 = :v1" : String).data.take 3 := by rw [h]
  simp [String.data_append] at h2

/--
C10 (implicit): the submitted query request takes its
`ExpressionAttributeNames` and `ExpressionAttributeValues` only from the
key-condition writer's compiled fragment; a supplied filter contributes
only its `FilterExpression` string — the filter's own placeholder maps
(`#n0`/`:v0`, which that string references) are not merged into the
request.
-/
theorem claim_C10_filter_maps_not_merged {V W : Type} [BEq W]
    (tableName hashKeyName : String) (mapper : Mapper V W) (hashKey : V)
    (sortKeyCond filter : Option (Cond W)) :
    ((queryCompile tableName hashKeyName mapper hashKey sortKeyCond
        filter).1.ExpressionAttributeNames
      = (compileQueryKeyCondition (compileQueryFilter ⟨0, 0⟩ filter).2
          hashKeyName mapper hashKey sortKeyCond).ExpressionAttributeNames)
    ∧ ((queryCompile tableName hashKeyName mapper hashKey sortKeyCond
        filter).1.ExpressionAttributeValues
      = (compileQueryKeyCondition (compileQueryFilter ⟨0, 0⟩ filter).2
          hashKeyName mapper hashKey sortKeyCond).ExpressionAttributeValues)
    ∧ ((queryCompile tableName hashKeyName mapper hashKey sortKeyCond
        filter).1.FilterExpression
      = ((compileQueryFilter ⟨0, 0⟩ filter).1).map CompiledExpr.Expression)
    ∧ (∀ (tn ks k2 op v2 hvs : String),
        (queryCompile tn ks (⟨id, id⟩ : Mapper String String) hvs none
            (some (Cond.comparison k2 op v2))).1.FilterExpression
          = some ("#n0" ++ " " ++ op ++ " " ++ ":v0")
        ∧ (queryCompile tn ks (⟨id, id⟩ : Mapper String String) hvs none
            (some (Cond.comparison k2 op v2))).1.ExpressionAttributeNames.map
              Prod.fst = ["#n1"]
        ∧ (queryCompile tn ks (⟨id, id⟩ : Mapper String String) hvs none
            (some (Cond.comparison k2 op v2))).1.ExpressionAttributeValues.map
              Prod.fst = [":v1"]
        ∧ ("#n0" : String) ∉
            ((queryCompile tn ks (⟨id, id⟩ : Mapper String String) hvs none
              (some (Cond.comparison k2 op v2))).1.ExpressionAttributeNames.map
                Prod.fst)
        ∧ ((":v0" : String) ∉
            ((queryCompile tn ks (⟨id, id⟩ : Mapper String String) hvs none
              (some (Cond.comparison k2 op v2))).1.ExpressionAttributeValues.map
                Prod.fst))) := by
  refine ⟨by rfl, by rfl, by rfl, ?_⟩
  intro tn ks k2 op v2 hvs
  have hq := queryCompile_single_comparison_filter tn ks k2 op v2 hvs
  refine ⟨by rw [hq], by rw [hq]; rfl, by rw [hq]; rfl, ?_, ?_⟩
  · rw [hq]
    show ("#n0" : String) ∉ ["#n1"]
    decide
  · rw [hq]
    show (":v0" : String) ∉ [":v1"]
    decide

end Punchcard
